import Mathlib

/-!
# The SRF02 sonar driver (`sonar.c`)

A shallow embedding of `init_sonar` and `get_sonar_value`.

The driver talks to the TWI master block `TWIC.MASTER` through volatile 8-bit
registers.  Every register access of the C code is one call of `store` (a write)
or `load` / `busy_wait` (a read) against an abstract peripheral `Periph σ`; the
accesses are logged, in program order, in a trace of `Event`s.  Two peripherals
are used: `plainRegs`, where every register is a plain read/write byte cell, and
`simPeriph`, where the values read from `STATUS` and `DATA` come from two input
streams.

The bit masks `TWI_MASTER_ENABLE_bm`, `TWI_MASTER_CLKHOLD_bm` and
`TWI_MASTER_RIF_bm` come from the AVR device header, which is not part of the
repository; they are parameters (`Masks`).
-/

namespace Sonar

/-! ## Registers, peripheral, trace -/

/-- The registers of the TWI master block `TWIC.MASTER`. -/
inductive Reg
  | CTRLA | CTRLB | CTRLC | STATUS | BAUD | ADDR | DATA
  deriving DecidableEq

/-- The bit masks of the device header used by the driver, as parameters. -/
structure Masks where
  TWI_MASTER_ENABLE_bm : Nat
  TWI_MASTER_CLKHOLD_bm : Nat
  TWI_MASTER_RIF_bm : Nat
  deriving DecidableEq

/-- One register access of the driver.  `poll mask v` is a read of `STATUS` in the
condition of a `while (!(STATUS & mask));` loop that returned the byte `v`. -/
inductive Event
  | write (r : Reg) (v : Nat)
  | read (r : Reg) (v : Nat)
  | poll (mask : Nat) (v : Nat)
  deriving DecidableEq

/-- A peripheral: what a volatile read returns (and how the device moves on), and
how the device reacts to a write. -/
structure Periph (σ : Type) where
  read : Reg → σ → Nat × σ
  write : Reg → Nat → σ → σ

/-- The peripheral state together with the log of the accesses made so far. -/
structure Bus (σ : Type) where
  dev : σ
  trace : List Event
  deriving DecidableEq

variable {σ : Type}

/-- The assignment `TWIC.MASTER.r = v;` to an 8-bit register. -/
def store (p : Periph σ) (r : Reg) (v : Nat) (b : Bus σ) : Bus σ :=
  { dev := p.write r (v % 256) b.dev, trace := b.trace ++ [Event.write r (v % 256)] }

/-- A read of the 8-bit register `TWIC.MASTER.r`. -/
def load (p : Periph σ) (r : Reg) (b : Bus σ) : Nat × Bus σ :=
  ((p.read r b.dev).1 % 256,
   { dev := (p.read r b.dev).2, trace := b.trace ++ [Event.read r ((p.read r b.dev).1 % 256)] })

/-- The loop `while (!(TWIC.MASTER.STATUS & mask));`, with at most `fuel` reads of
`STATUS`; `none` when the flag was not seen set within `fuel` reads. -/
def busy_wait (p : Periph σ) (mask : Nat) : Nat → Bus σ → Option (Bus σ)
  | 0, _ => none
  | fuel + 1, b =>
    if ((p.read Reg.STATUS b.dev).1 % 256) &&& mask ≠ 0 then
      some { dev := (p.read Reg.STATUS b.dev).2,
             trace := b.trace ++ [Event.poll mask ((p.read Reg.STATUS b.dev).1 % 256)] }
    else
      busy_wait p mask fuel
        { dev := (p.read Reg.STATUS b.dev).2,
          trace := b.trace ++ [Event.poll mask ((p.read Reg.STATUS b.dev).1 % 256)] }

/-! ## The driver -/

/-- The function `init_sonar` of `sonar.c`. -/
def init_sonar (p : Periph σ) (m : Masks) (b : Bus σ) : Bus σ :=
  let b := store p Reg.BAUD 155 b
  let a := load p Reg.CTRLA b
  let b := store p Reg.CTRLA (a.1 ||| m.TWI_MASTER_ENABLE_bm) a.2
  let s := load p Reg.STATUS b
  store p Reg.STATUS (s.1 ||| 0x01) s.2

/-- Conversion of a mathematical integer to the 16-bit `int` of the AVR target
(two-complement wrap-around). -/
def to_int16 (x : Int) : Int := (x + 32768) % 65536 - 32768

/-- Conversion of an `int` to `uint16_t`: reduction modulo `2^16`. -/
def to_uint16 (x : Int) : Nat := (x % 65536).toNat

/-- The lines `range_FULL = range_HIGH*256; range_FULL += range_LOW;` of
`get_sonar_value`: the product is an `int` (16 bits), stored in a `uint16_t`,
and the addition is carried out on `uint16_t`. -/
def range_FULL (range_HIGH range_LOW : Nat) : Nat :=
  let full := to_uint16 (to_int16 ((range_HIGH : Int) * 256))
  (full + range_LOW) % 65536

/-- The function `get_sonar_value` of `sonar.c`; every busy-wait loop may read
`STATUS` at most `fuel` times, and the result is `none` when one of them gives up. -/
def get_sonar_value (p : Periph σ) (m : Masks) (fuel : Nat) (b : Bus σ) :
    Option (Nat × Bus σ) := do
  let b := store p Reg.ADDR 0xE0 b
  let b ← busy_wait p m.TWI_MASTER_CLKHOLD_bm fuel b
  let b := store p Reg.DATA 0x00 b
  let b ← busy_wait p m.TWI_MASTER_CLKHOLD_bm fuel b
  let b := store p Reg.DATA 0x51 b
  let b ← busy_wait p m.TWI_MASTER_CLKHOLD_bm fuel b
  let b := store p Reg.CTRLC 0x03 b
  let b := store p Reg.ADDR 0xE0 b
  let b ← busy_wait p m.TWI_MASTER_CLKHOLD_bm fuel b
  let b := store p Reg.DATA 0x02 b
  let b ← busy_wait p m.TWI_MASTER_CLKHOLD_bm fuel b
  let b := store p Reg.CTRLC 0x03 b
  let b := store p Reg.ADDR 0xE1 b
  let b ← busy_wait p m.TWI_MASTER_CLKHOLD_bm fuel b
  let hi := load p Reg.DATA b
  let b := store p Reg.CTRLC 0x02 hi.2
  let b ← busy_wait p m.TWI_MASTER_RIF_bm fuel b
  let lo := load p Reg.DATA b
  let b := store p Reg.CTRLC 0b00000111 lo.2
  pure (range_FULL hi.1 lo.1, b)

/-! ## Two peripherals -/

/-- The register file of the TWI master block, every register a plain byte cell. -/
structure TWI_MASTER_t where
  CTRLA : Nat
  CTRLB : Nat
  CTRLC : Nat
  STATUS : Nat
  BAUD : Nat
  ADDR : Nat
  DATA : Nat
  deriving DecidableEq

/-- Value of a register of the plain register file. -/
def TWI_MASTER_t.get (s : TWI_MASTER_t) : Reg → Nat
  | Reg.CTRLA => s.CTRLA
  | Reg.CTRLB => s.CTRLB
  | Reg.CTRLC => s.CTRLC
  | Reg.STATUS => s.STATUS
  | Reg.BAUD => s.BAUD
  | Reg.ADDR => s.ADDR
  | Reg.DATA => s.DATA

/-- Update of a register of the plain register file. -/
def TWI_MASTER_t.set (s : TWI_MASTER_t) (r : Reg) (v : Nat) : TWI_MASTER_t :=
  match r with
  | Reg.CTRLA => { s with CTRLA := v }
  | Reg.CTRLB => { s with CTRLB := v }
  | Reg.CTRLC => { s with CTRLC := v }
  | Reg.STATUS => { s with STATUS := v }
  | Reg.BAUD => { s with BAUD := v }
  | Reg.ADDR => { s with ADDR := v }
  | Reg.DATA => { s with DATA := v }

/-- The peripheral whose registers are plain read/write cells: a read returns the
last value written and changes nothing. -/
def plainRegs : Periph TWI_MASTER_t where
  read := fun r s => (s.get r, s)
  write := fun r v s => s.set r v

/-- The register file after `init_sonar`, started on the plain register file `s`. -/
def init_regs (m : Masks) (s : TWI_MASTER_t) : TWI_MASTER_t :=
  (init_sonar plainRegs m { dev := s, trace := [] }).dev

/-- State of the simulated peripheral: how many values of each input stream have
been consumed. -/
structure SimState where
  nStatus : Nat
  nData : Nat
  deriving DecidableEq

/-- The simulated peripheral: the `k`-th read of `STATUS` returns `status k`, the
`k`-th read of `DATA` returns `data k`; every other register reads as `0`, and
writes do not influence what is read. -/
def simPeriph (status data : Nat → Nat) : Periph SimState where
  read := fun r s =>
    match r with
    | Reg.STATUS => (status s.nStatus, { s with nStatus := s.nStatus + 1 })
    | Reg.DATA => (data s.nData, { s with nData := s.nData + 1 })
    | _ => (0, s)
  write := fun _ _ s => s

/-- The simulated peripheral before any access. -/
def simStart : Bus SimState := { dev := { nStatus := 0, nData := 0 }, trace := [] }

/-- Mask values of the ATxmega device header, used for concrete runs. -/
def xmegaMasks : Masks :=
  { TWI_MASTER_ENABLE_bm := 0x08, TWI_MASTER_CLKHOLD_bm := 0x20, TWI_MASTER_RIF_bm := 0x80 }

/-! ## Reading traces -/

/-- Whether the event is a read of `STATUS` made by a busy-wait loop. -/
def Event.isPoll : Event → Bool
  | Event.poll _ _ => true
  | _ => false

/-- The accesses of a trace other than the status polls. -/
def busEvents (tr : List Event) : List Event :=
  tr.filter (fun e => !e.isPoll)

/-- The register and value of a write event. -/
def Event.asWrite : Event → Option (Reg × Nat)
  | Event.write r v => some (r, v)
  | _ => none

/-- The register writes of a trace, in order. -/
def writesOf (tr : List Event) : List (Reg × Nat) :=
  tr.filterMap Event.asWrite

/-- Whether the event is a write that starts a bus operation: a write to `ADDR`,
`DATA` or `CTRLC`. -/
def Event.isBusWrite : Event → Bool
  | Event.write Reg.ADDR _ => true
  | Event.write Reg.DATA _ => true
  | Event.write Reg.CTRLC _ => true
  | _ => false

/-- Whether the event is a status poll that saw a completion flag set: a poll of the
clock-hold flag or of the receive-complete flag whose value has a bit of the mask. -/
def Event.isCompletion (m : Masks) : Event → Bool
  | Event.poll mask v =>
    (decide (mask = m.TWI_MASTER_CLKHOLD_bm) || decide (mask = m.TWI_MASTER_RIF_bm)) &&
      decide (v &&& mask ≠ 0)
  | _ => false

/-- The stop command `TWIC.MASTER.CTRLC = 0x03`. -/
def stopCmd : Event := Event.write Reg.CTRLC 0x03

/-- The events of one completed busy-wait on `mask`: polls that find every bit of
`mask` clear, followed by one poll that finds a bit of `mask` set. -/
def IsPoll (mask : Nat) (evs : List Event) : Prop :=
  ∃ (vs : List Nat) (v : Nat), evs = vs.map (Event.poll mask) ++ [Event.poll mask v] ∧
    (∀ x ∈ vs, x &&& mask = 0) ∧ v &&& mask ≠ 0

/-- The twelve bus accesses of one exchange, `hi` and `lo` being the bytes read. -/
def exchange (hi lo : Nat) : List Event :=
  [Event.write Reg.ADDR 0xE0, Event.write Reg.DATA 0x00, Event.write Reg.DATA 0x51,
   Event.write Reg.CTRLC 0x03, Event.write Reg.ADDR 0xE0, Event.write Reg.DATA 0x02,
   Event.write Reg.CTRLC 0x03, Event.write Reg.ADDR 0xE1, Event.read Reg.DATA hi,
   Event.write Reg.CTRLC 0x02, Event.read Reg.DATA lo, Event.write Reg.CTRLC 0x07]

/-- The property that between any two writes that start a bus operation a status poll
saw a completion flag set. -/
def SingleInFlight (m : Masks) (tr : List Event) : Prop :=
  ∀ (pre mid post : List Event) (e1 e2 : Event), tr = pre ++ e1 :: (mid ++ e2 :: post) →
    e1.isBusWrite = true → e2.isBusWrite = true → ∃ c ∈ mid, c.isCompletion m = true

/-- The same property, asked only of the writes that are not a stop command. -/
def SingleInFlightButStop (m : Masks) (tr : List Event) : Prop :=
  ∀ (pre mid post : List Event) (e1 e2 : Event), tr = pre ++ e1 :: (mid ++ e2 :: post) →
    e1.isBusWrite = true → e1 ≠ stopCmd → e2.isBusWrite = true →
    ∃ c ∈ mid, c.isCompletion m = true

/-- A monitor for `SingleInFlightButStop`: `pending` tells whether a bus write other
than a stop command has been seen with no completion poll after it. -/
def awaits (m : Masks) : Bool → List Event → Bool
  | _, [] => true
  | pending, e :: es =>
    if e.isBusWrite then !pending && awaits m (decide (e ≠ stopCmd)) es
    else if e.isCompletion m then awaits m false es
    else awaits m pending es

/-! ## Status streams -/

/-- The index `k` is the first one from `i` on at which the byte read from `STATUS`
has a bit of `mask` set. -/
def FirstSet (status : Nat → Nat) (mask i k : Nat) : Prop :=
  i ≤ k ∧ (∀ j, i ≤ j → j < k → status j % 256 &&& mask = 0) ∧ status k % 256 &&& mask ≠ 0

/-- Busy-waits on the masks of the list, one after the other from status read `i` on,
each see their flag set within `fuel` reads. -/
def PollsWithin (status : Nat → Nat) (fuel : Nat) : List Nat → Nat → Prop
  | [], _ => True
  | mask :: ms, i =>
    ∃ k, FirstSet status mask i k ∧ k < i + fuel ∧ PollsWithin status fuel ms (k + 1)

/-- Busy-waits on the masks of the list, one after the other from status read `i` on,
each see their flag set after finitely many reads. -/
def PollsComplete (status : Nat → Nat) : List Nat → Nat → Prop
  | [], _ => True
  | mask :: ms, i => ∃ k, FirstSet status mask i k ∧ PollsComplete status ms (k + 1)

/-- The flags the seven busy-wait loops of `get_sonar_value` wait for, in order. -/
def waitMasks (m : Masks) : List Nat :=
  [m.TWI_MASTER_CLKHOLD_bm, m.TWI_MASTER_CLKHOLD_bm, m.TWI_MASTER_CLKHOLD_bm,
   m.TWI_MASTER_CLKHOLD_bm, m.TWI_MASTER_CLKHOLD_bm, m.TWI_MASTER_CLKHOLD_bm,
   m.TWI_MASTER_RIF_bm]

/-- What an observer of the bus sees of a finished call: the value returned and the
register writes. -/
def observe (x : Nat × Bus SimState) : Nat × List (Reg × Nat) :=
  (x.1, writesOf x.2.trace)

/-! ## A sample run -/

/-- A status stream on which every busy-wait polls twice: the even reads return
`0x10` (neither flag set, the receive-acknowledge bit set), the odd reads return
`0xA0` (clock-hold and receive-complete set). -/
def slowStatus : Nat → Nat := fun k => if k % 2 = 1 then 0xA0 else 0x10

/-- A status stream equal to `slowStatus` but for the receive-acknowledge bit `0x10`,
which is inverted at every read. -/
def flippedStatus : Nat → Nat := fun k => if k % 2 = 1 then 0xB0 else 0x00

/-- A data stream whose first byte is `0x01` and whose later bytes are `0x2C`. -/
def sampleData : Nat → Nat := fun k => if k = 0 then 0x01 else 0x2C

/-- The trace of `get_sonar_value` on `slowStatus` and `sampleData`. -/
def sampleTrace : List Event :=
  [Event.write Reg.ADDR 224, Event.poll 32 16, Event.poll 32 160,
   Event.write Reg.DATA 0, Event.poll 32 16, Event.poll 32 160,
   Event.write Reg.DATA 81, Event.poll 32 16, Event.poll 32 160,
   Event.write Reg.CTRLC 3,
   Event.write Reg.ADDR 224, Event.poll 32 16, Event.poll 32 160,
   Event.write Reg.DATA 2, Event.poll 32 16, Event.poll 32 160,
   Event.write Reg.CTRLC 3,
   Event.write Reg.ADDR 225, Event.poll 32 16, Event.poll 32 160,
   Event.read Reg.DATA 1,
   Event.write Reg.CTRLC 2, Event.poll 128 16, Event.poll 128 160,
   Event.read Reg.DATA 44,
   Event.write Reg.CTRLC 7]

/-- The bus after `get_sonar_value` on `slowStatus` and `sampleData`. -/
def sampleEnd : Bus SimState := { dev := { nStatus := 14, nData := 2 }, trace := sampleTrace }

/-! ## Bytes -/

theorem testBit_byte (x i : Nat) : (x % 256).testBit i = (decide (i < 8) && x.testBit i) := by
  have h8 : (256 : Nat) = 2 ^ 8 := by norm_num
  rw [h8, Nat.testBit_mod_two_pow]

theorem byte_or_idem (a e : Nat) : ((a ||| e) % 256 ||| e) % 256 = (a ||| e) % 256 := by
  apply Nat.eq_of_testBit_eq
  intro i
  simp only [testBit_byte, Nat.testBit_or]
  cases decide (i < 8) <;> cases a.testBit i <;> cases e.testBit i <;> rfl

theorem byte_or_and (a e : Nat) (he : e < 256) : (a ||| e) % 256 &&& e = e := by
  apply Nat.eq_of_testBit_eq
  intro i
  simp only [testBit_byte, Nat.testBit_or, Nat.testBit_and]
  by_cases hi : i < 8
  · simp only [hi, decide_True, Bool.true_and]
    cases a.testBit i <;> cases e.testBit i <;> rfl
  · have : e.testBit i = false := by
      apply Nat.testBit_lt_two_pow
      exact lt_of_lt_of_le he (by
        have : 2 ^ 8 ≤ 2 ^ i := Nat.pow_le_pow_right (by norm_num) (by omega)
        simpa using this)
    simp [this]

theorem byte_or_testBit (a e i : Nat) (hi : i < 8) (he : e.testBit i = false) :
    ((a % 256 ||| e) % 256).testBit i = a.testBit i := by
  simp only [testBit_byte, Nat.testBit_or, hi, he, decide_True, Bool.true_and, Bool.or_false]

theorem range_FULL_exact (h l : Nat) (hh : h < 256) (hl : l < 256) :
    range_FULL h l = h * 256 + l := by
  unfold range_FULL to_uint16 to_int16
  simp only
  omega

/-! ## Busy-waits and traces on any peripheral -/

theorem busy_wait_trace (p : Periph σ) (mask : Nat) (fuel : Nat) (b c : Bus σ)
    (h : busy_wait p mask fuel b = some c) :
    ∃ evs, IsPoll mask evs ∧ c.trace = b.trace ++ evs := by
  induction fuel generalizing b with
  | zero => simp [busy_wait] at h
  | succ n ih =>
    rw [busy_wait] at h
    split at h
    · rename_i hset
      refine ⟨[Event.poll mask ((p.read Reg.STATUS b.dev).1 % 256)], ⟨[], _, rfl, by simp, hset⟩, ?_⟩
      cases h
      rfl
    · rename_i hclr
      obtain ⟨evs, ⟨vs, v, he, hvs, hv⟩, ht⟩ := ih _ h
      refine ⟨Event.poll mask ((p.read Reg.STATUS b.dev).1 % 256) :: evs,
        ⟨((p.read Reg.STATUS b.dev).1 % 256) :: vs, v, by simp [he], ?_, hv⟩, by simpa using ht⟩
      intro x hx
      rcases List.mem_cons.1 hx with rfl | hx
      · simpa using hclr
      · exact hvs x hx

theorem get_sonar_value_trace (p : Periph σ) (m : Masks) (fuel : Nat) (b c : Bus σ) (r : Nat)
    (h : get_sonar_value p m fuel b = some (r, c)) :
    ∃ p1 p2 p3 p4 p5 p6 p7 hi lo,
      IsPoll m.TWI_MASTER_CLKHOLD_bm p1 ∧ IsPoll m.TWI_MASTER_CLKHOLD_bm p2 ∧
      IsPoll m.TWI_MASTER_CLKHOLD_bm p3 ∧ IsPoll m.TWI_MASTER_CLKHOLD_bm p4 ∧
      IsPoll m.TWI_MASTER_CLKHOLD_bm p5 ∧ IsPoll m.TWI_MASTER_CLKHOLD_bm p6 ∧
      IsPoll m.TWI_MASTER_RIF_bm p7 ∧ hi < 256 ∧ lo < 256 ∧ r = range_FULL hi lo ∧
      c.trace = b.trace ++
        ([Event.write Reg.ADDR 0xE0] ++ p1 ++ [Event.write Reg.DATA 0x00] ++ p2 ++
         [Event.write Reg.DATA 0x51] ++ p3 ++
         [Event.write Reg.CTRLC 0x03, Event.write Reg.ADDR 0xE0] ++ p4 ++
         [Event.write Reg.DATA 0x02] ++ p5 ++
         [Event.write Reg.CTRLC 0x03, Event.write Reg.ADDR 0xE1] ++ p6 ++
         [Event.read Reg.DATA hi, Event.write Reg.CTRLC 0x02] ++ p7 ++
         [Event.read Reg.DATA lo, Event.write Reg.CTRLC 0x07]) := by
  simp only [get_sonar_value, bind, Option.bind_eq_some, pure, Option.some.injEq, Prod.mk.injEq] at h
  obtain ⟨b1, h1, b2, h2, b3, h3, b4, h4, b5, h5, b6, h6, b7, h7, hr, hb⟩ := h
  obtain ⟨p1, hp1, t1⟩ := busy_wait_trace _ _ _ _ _ h1
  obtain ⟨p2, hp2, t2⟩ := busy_wait_trace _ _ _ _ _ h2
  obtain ⟨p3, hp3, t3⟩ := busy_wait_trace _ _ _ _ _ h3
  obtain ⟨p4, hp4, t4⟩ := busy_wait_trace _ _ _ _ _ h4
  obtain ⟨p5, hp5, t5⟩ := busy_wait_trace _ _ _ _ _ h5
  obtain ⟨p6, hp6, t6⟩ := busy_wait_trace _ _ _ _ _ h6
  obtain ⟨p7, hp7, t7⟩ := busy_wait_trace _ _ _ _ _ h7
  refine ⟨p1, p2, p3, p4, p5, p6, p7, (load p Reg.DATA b6).1, (load p Reg.DATA b7).1,
    hp1, hp2, hp3, hp4, hp5, hp6, hp7, Nat.mod_lt _ (by norm_num), Nat.mod_lt _ (by norm_num),
    hr.symm, ?_⟩
  subst hb
  simp only [store, load] at t1 t2 t3 t4 t5 t6 t7 ⊢
  simp only [t7, t6, t5, t4, t3, t2, t1]
  simp [List.append_assoc]


/-! ## Runs on the simulated peripheral -/

theorem store_sim_dev (s d : Nat → Nat) (r : Reg) (v : Nat) (b : Bus SimState) :
    (store (simPeriph s d) r v b).dev = b.dev := rfl

theorem load_sim_data_dev (s d : Nat → Nat) (b : Bus SimState) :
    (load (simPeriph s d) Reg.DATA b).2.dev = { nStatus := b.dev.nStatus, nData := b.dev.nData + 1 } :=
  rfl

theorem load_sim_data_val (s d : Nat → Nat) (b : Bus SimState) :
    (load (simPeriph s d) Reg.DATA b).1 = d b.dev.nData % 256 := rfl

theorem busy_wait_sim_some (s d : Nat → Nat) (mask fuel : Nat) (b c : Bus SimState)
    (h : busy_wait (simPeriph s d) mask fuel b = some c) :
    ∃ k, FirstSet s mask b.dev.nStatus k ∧ k < b.dev.nStatus + fuel ∧
      c.dev = { nStatus := k + 1, nData := b.dev.nData } := by
  induction fuel generalizing b with
  | zero => simp [busy_wait] at h
  | succ n ih =>
    rw [busy_wait] at h
    split at h
    · rename_i hset
      cases h
      exact ⟨b.dev.nStatus, ⟨le_refl _, fun j h1 h2 => by omega, hset⟩, by omega, rfl⟩
    · rename_i hclr
      obtain ⟨k, ⟨hk1, hk2, hk3⟩, hk4, hk5⟩ := ih _ h
      simp only [simPeriph] at hk1 hk2 hk3 hk4 hk5 hclr
      refine ⟨k, ⟨by omega, ?_, hk3⟩, by omega, hk5⟩
      intro j hj1 hj2
      rcases Nat.eq_or_lt_of_le hj1 with rfl | hlt
      · simpa using hclr
      · exact hk2 j hlt hj2

theorem busy_wait_sim_of_firstSet (s d : Nat → Nat) (mask fuel : Nat) (b : Bus SimState) (k : Nat)
    (hk : FirstSet s mask b.dev.nStatus k) (hf : k < b.dev.nStatus + fuel) :
    ∃ c, busy_wait (simPeriph s d) mask fuel b = some c ∧
      c.dev = { nStatus := k + 1, nData := b.dev.nData } := by
  induction fuel generalizing b with
  | zero => obtain ⟨h1, _, _⟩ := hk; omega
  | succ n ih =>
    obtain ⟨h1, h2, h3⟩ := hk
    rw [busy_wait]
    rcases Nat.eq_or_lt_of_le h1 with heq | hlt
    · subst heq
      have hset : (((simPeriph s d).read Reg.STATUS b.dev).1 % 256) &&& mask ≠ 0 := h3
      rw [if_pos hset]
      exact ⟨_, rfl, rfl⟩
    · have hclr : ¬ ((((simPeriph s d).read Reg.STATUS b.dev).1 % 256) &&& mask ≠ 0) := by
        have := h2 b.dev.nStatus (le_refl _) hlt
        simpa [simPeriph] using this
      rw [if_neg hclr]
      apply ih
      · exact ⟨hlt, fun j hj1 hj2 => h2 j (Nat.le_of_succ_le hj1) hj2, h3⟩
      · show k < b.dev.nStatus + 1 + n
        omega


theorem get_sonar_value_sim_some (s d : Nat → Nat) (m : Masks) (fuel : Nat) (b c : Bus SimState)
    (r : Nat) (h : get_sonar_value (simPeriph s d) m fuel b = some (r, c)) :
    PollsWithin s fuel (waitMasks m) b.dev.nStatus ∧
      r = range_FULL (d b.dev.nData % 256) (d (b.dev.nData + 1) % 256) := by
  simp only [get_sonar_value, bind, Option.bind_eq_some, pure, Option.some.injEq,
    Prod.mk.injEq] at h
  obtain ⟨b1, h1, b2, h2, b3, h3, b4, h4, b5, h5, b6, h6, b7, h7, hr, -⟩ := h
  obtain ⟨k1, f1, l1, d1⟩ := busy_wait_sim_some _ _ _ _ _ _ h1
  obtain ⟨k2, f2, l2, d2⟩ := busy_wait_sim_some _ _ _ _ _ _ h2
  obtain ⟨k3, f3, l3, d3⟩ := busy_wait_sim_some _ _ _ _ _ _ h3
  obtain ⟨k4, f4, l4, d4⟩ := busy_wait_sim_some _ _ _ _ _ _ h4
  obtain ⟨k5, f5, l5, d5⟩ := busy_wait_sim_some _ _ _ _ _ _ h5
  obtain ⟨k6, f6, l6, d6⟩ := busy_wait_sim_some _ _ _ _ _ _ h6
  obtain ⟨k7, f7, l7, d7⟩ := busy_wait_sim_some _ _ _ _ _ _ h7
  simp only [store_sim_dev, load_sim_data_dev] at f1 f2 f3 f4 f5 f6 f7 l1 l2 l3 l4 l5 l6 l7 d1 d2 d3 d4 d5 d6 d7
  simp only [d1] at f2 l2 d2
  simp only [d2] at f3 l3 d3
  simp only [d3] at f4 l4 d4
  simp only [d4] at f5 l5 d5
  simp only [d5] at f6 l6 d6
  simp only [d6] at f7 l7 d7
  refine ⟨⟨k1, f1, l1, k2, f2, l2, k3, f3, l3, k4, f4, l4, k5, f5, l5, k6, f6, l6, k7, f7, l7,
    trivial⟩, ?_⟩
  rw [← hr]
  simp only [load_sim_data_val, store_sim_dev, d1, d2, d3, d4, d5, d6, d7]

theorem get_sonar_value_sim_of_polls (s d : Nat → Nat) (m : Masks) (fuel : Nat) (b : Bus SimState)
    (h : PollsWithin s fuel (waitMasks m) b.dev.nStatus) :
    ∃ c, get_sonar_value (simPeriph s d) m fuel b =
      some (range_FULL (d b.dev.nData % 256) (d (b.dev.nData + 1) % 256), c) := by
  obtain ⟨k1, f1, l1, k2, f2, l2, k3, f3, l3, k4, f4, l4, k5, f5, l5, k6, f6, l6, k7, f7, l7, -⟩ := h
  obtain ⟨b1, e1, d1⟩ := busy_wait_sim_of_firstSet s d _ fuel (store (simPeriph s d) Reg.ADDR 0xE0 b) k1 f1 l1
  obtain ⟨b2, e2, d2⟩ := busy_wait_sim_of_firstSet s d _ fuel (store (simPeriph s d) Reg.DATA 0x00 b1) k2
    (by simpa [store_sim_dev, load_sim_data_dev, d1] using f2) (by simpa [store_sim_dev, load_sim_data_dev, d1] using l2)
  obtain ⟨b3, e3, d3⟩ := busy_wait_sim_of_firstSet s d _ fuel (store (simPeriph s d) Reg.DATA 0x51 b2) k3
    (by simpa [store_sim_dev, load_sim_data_dev, d2] using f3) (by simpa [store_sim_dev, load_sim_data_dev, d2] using l3)
  obtain ⟨b4, e4, d4⟩ := busy_wait_sim_of_firstSet s d _ fuel
    (store (simPeriph s d) Reg.ADDR 0xE0 (store (simPeriph s d) Reg.CTRLC 0x03 b3)) k4
    (by simpa [store_sim_dev, load_sim_data_dev, d3] using f4) (by simpa [store_sim_dev, load_sim_data_dev, d3] using l4)
  obtain ⟨b5, e5, d5⟩ := busy_wait_sim_of_firstSet s d _ fuel (store (simPeriph s d) Reg.DATA 0x02 b4) k5
    (by simpa [store_sim_dev, load_sim_data_dev, d4] using f5) (by simpa [store_sim_dev, load_sim_data_dev, d4] using l5)
  obtain ⟨b6, e6, d6⟩ := busy_wait_sim_of_firstSet s d _ fuel
    (store (simPeriph s d) Reg.ADDR 0xE1 (store (simPeriph s d) Reg.CTRLC 0x03 b5)) k6
    (by simpa [store_sim_dev, load_sim_data_dev, d5] using f6) (by simpa [store_sim_dev, load_sim_data_dev, d5] using l6)
  obtain ⟨b7, e7, d7⟩ := busy_wait_sim_of_firstSet s d _ fuel
    (store (simPeriph s d) Reg.CTRLC 0x02 (load (simPeriph s d) Reg.DATA b6).2) k7
    (by simpa [store_sim_dev, load_sim_data_dev, d6] using f7) (by simpa [store_sim_dev, load_sim_data_dev, d6] using l7)
  refine ⟨store (simPeriph s d) Reg.CTRLC 0b00000111 (load (simPeriph s d) Reg.DATA b7).2, ?_⟩
  simp only [get_sonar_value, bind, pure, e1, e2, e3, e4, e5, e6, e7, Option.bind,
    load_sim_data_val, store_sim_dev, load_sim_data_dev, d1, d2, d3, d4, d5, d6, d7]

/-! ## Status streams: fuel and agreement -/

theorem PollsWithin_mono (s : Nat → Nat) (f g : Nat) (hfg : f ≤ g) (ms : List Nat) (i : Nat)
    (h : PollsWithin s f ms i) : PollsWithin s g ms i := by
  induction ms generalizing i with
  | nil => trivial
  | cons mask ms ih =>
    obtain ⟨k, hk, hl, hrest⟩ := h
    exact ⟨k, hk, by omega, ih _ hrest⟩

theorem PollsComplete_of_within (s : Nat → Nat) (f : Nat) (ms : List Nat) (i : Nat)
    (h : PollsWithin s f ms i) : PollsComplete s ms i := by
  induction ms generalizing i with
  | nil => trivial
  | cons mask ms ih =>
    obtain ⟨k, hk, _, hrest⟩ := h
    exact ⟨k, hk, ih _ hrest⟩

theorem PollsWithin_of_complete (s : Nat → Nat) (ms : List Nat) (i : Nat)
    (h : PollsComplete s ms i) : ∃ f, PollsWithin s f ms i := by
  induction ms generalizing i with
  | nil => exact ⟨0, trivial⟩
  | cons mask ms ih =>
    obtain ⟨k, hk, hrest⟩ := h
    obtain ⟨f, hf⟩ := ih _ hrest
    refine ⟨f + (k + 1), k, hk, by omega, PollsWithin_mono s f _ (by omega) ms _ hf⟩

theorem FirstSet_agree (s1 s2 : Nat → Nat) (mask : Nat)
    (h : ∀ n, s1 n % 256 &&& mask = s2 n % 256 &&& mask) (i k : Nat)
    (hk : FirstSet s1 mask i k) : FirstSet s2 mask i k := by
  obtain ⟨h1, h2, h3⟩ := hk
  refine ⟨h1, fun j hj1 hj2 => ?_, ?_⟩
  · rw [← h j]
    exact h2 j hj1 hj2
  · rw [← h k]
    exact h3

theorem PollsWithin_agree (s1 s2 : Nat → Nat) (f : Nat) (ms : List Nat)
    (h : ∀ mask ∈ ms, ∀ n, s1 n % 256 &&& mask = s2 n % 256 &&& mask) (i : Nat)
    (hp : PollsWithin s1 f ms i) : PollsWithin s2 f ms i := by
  induction ms generalizing i with
  | nil => trivial
  | cons mask ms ih =>
    obtain ⟨k, hk, hl, hrest⟩ := hp
    exact ⟨k, FirstSet_agree s1 s2 mask (h mask (List.mem_cons_self _ _)) i k hk, hl,
      ih (fun x hx => h x (List.mem_cons_of_mem _ hx)) _ hrest⟩

theorem not_PollsWithin_of_never (s : Nat → Nat) (f mask : Nat) (ms : List Nat) (i : Nat)
    (h : ∀ k, i ≤ k → s k % 256 &&& mask = 0) : ¬ PollsWithin s f (mask :: ms) i := by
  rintro ⟨k, ⟨hk1, _, hk3⟩, _, _⟩
  exact hk3 (h k hk1)

/-! ## Traces: polls, writes, the monitor -/

theorem busEvents_append (xs ys : List Event) :
    busEvents (xs ++ ys) = busEvents xs ++ busEvents ys := by
  simp [busEvents]

theorem writesOf_append (xs ys : List Event) :
    writesOf (xs ++ ys) = writesOf xs ++ writesOf ys := by
  simp [writesOf]

theorem busEvents_poll (mask : Nat) (evs : List Event) (h : IsPoll mask evs) :
    busEvents evs = [] := by
  obtain ⟨vs, v, rfl, -, -⟩ := h
  simp [busEvents, Event.isPoll]

theorem writesOf_poll (mask : Nat) (evs : List Event) (h : IsPoll mask evs) :
    writesOf evs = [] := by
  obtain ⟨vs, v, rfl, -, -⟩ := h
  simp [writesOf, Event.asWrite]

theorem awaits_poll (m : Masks) (mask : Nat) (evs rest : List Event) (pending : Bool)
    (hm : mask = m.TWI_MASTER_CLKHOLD_bm ∨ mask = m.TWI_MASTER_RIF_bm) (h : IsPoll mask evs) :
    awaits m pending (evs ++ rest) = awaits m false rest := by
  obtain ⟨vs, v, rfl, hvs, hv⟩ := h
  induction vs with
  | nil =>
    have hc : (Event.poll mask v).isCompletion m = true := by
      rcases hm with hm | hm <;> simp [Event.isCompletion, hm, hv] <;> simpa [hm] using hv
    simp [awaits, Event.isBusWrite, hc]
  | cons x xs ih =>
    have hx : x &&& mask = 0 := hvs x (List.mem_cons_self _ _)
    have hc : (Event.poll mask x).isCompletion m = false := by
      simp [Event.isCompletion, hx]
    have := ih (fun y hy => hvs y (List.mem_cons_of_mem _ hy))
    simpa [awaits, Event.isBusWrite, hc] using this

theorem awaits_pending (m : Masks) (mid post : List Event) (e2 : Event)
    (h : awaits m true (mid ++ e2 :: post) = true) (h2 : e2.isBusWrite = true) :
    ∃ c ∈ mid, c.isCompletion m = true := by
  induction mid with
  | nil => simp [awaits, h2] at h
  | cons x xs ih =>
    by_cases hc : x.isCompletion m = true
    · exact ⟨x, List.mem_cons_self _ _, hc⟩
    · by_cases hw : x.isBusWrite = true
      · simp [awaits, hw] at h
      · have : awaits m true (xs ++ e2 :: post) = true := by
          simpa [awaits, hw, hc] using h
        obtain ⟨c, hcm, hcc⟩ := ih this
        exact ⟨c, List.mem_cons_of_mem _ hcm, hcc⟩

theorem awaits_suffix (m : Masks) (pre rest : List Event) (pending : Bool)
    (h : awaits m pending (pre ++ rest) = true) : ∃ q, awaits m q rest = true := by
  induction pre generalizing pending with
  | nil => exact ⟨pending, h⟩
  | cons x xs ih =>
    by_cases hw : x.isBusWrite = true
    · have : awaits m (decide (x ≠ stopCmd)) (xs ++ rest) = true := by
        have h2 := h
        simp only [List.cons_append, awaits, hw, if_true, Bool.and_eq_true] at h2
        exact h2.2
      exact ih _ this
    · by_cases hc : x.isCompletion m = true
      · have : awaits m false (xs ++ rest) = true := by
          simpa [awaits, hw, hc] using h
        exact ih _ this
      · have : awaits m pending (xs ++ rest) = true := by
          simpa [awaits, hw, hc] using h
        exact ih _ this

theorem singleInFlightButStop_of_awaits (m : Masks) (tr : List Event) (pending : Bool)
    (h : awaits m pending tr = true) : SingleInFlightButStop m tr := by
  intro pre mid post e1 e2 htr h1 hne h2
  subst htr
  obtain ⟨q, hq⟩ := awaits_suffix m pre _ pending h
  have : awaits m true (mid ++ e2 :: post) = true := by
    simp only [awaits, h1, if_true, Bool.and_eq_true] at hq
    simpa [hne] using hq.2
  exact awaits_pending m mid post e2 this h2

theorem get_sonar_value_busEvents (p : Periph σ) (m : Masks) (fuel : Nat) (b c : Bus σ) (r : Nat)
    (h : get_sonar_value p m fuel b = some (r, c)) :
    ∃ evs hi lo, c.trace = b.trace ++ evs ∧ hi < 256 ∧ lo < 256 ∧ r = range_FULL hi lo ∧
      busEvents evs = exchange hi lo ∧
      writesOf evs = [(Reg.ADDR, 0xE0), (Reg.DATA, 0x00), (Reg.DATA, 0x51), (Reg.CTRLC, 0x03),
        (Reg.ADDR, 0xE0), (Reg.DATA, 0x02), (Reg.CTRLC, 0x03), (Reg.ADDR, 0xE1),
        (Reg.CTRLC, 0x02), (Reg.CTRLC, 0x07)] := by
  obtain ⟨p1, p2, p3, p4, p5, p6, p7, hi, lo, h1, h2, h3, h4, h5, h6, h7, hhi, hlo, hr, ht⟩ :=
    get_sonar_value_trace p m fuel b c r h
  refine ⟨_, hi, lo, ht, hhi, hlo, hr, ?_, ?_⟩
  · simp only [busEvents_append, busEvents_poll _ _ h1, busEvents_poll _ _ h2,
      busEvents_poll _ _ h3, busEvents_poll _ _ h4, busEvents_poll _ _ h5,
      busEvents_poll _ _ h6, busEvents_poll _ _ h7]
    rfl
  · simp only [writesOf_append, writesOf_poll _ _ h1, writesOf_poll _ _ h2,
      writesOf_poll _ _ h3, writesOf_poll _ _ h4, writesOf_poll _ _ h5,
      writesOf_poll _ _ h6, writesOf_poll _ _ h7]
    rfl

theorem get_sonar_value_sim_none (s d : Nat → Nat) (m : Masks) (fuel : Nat) (b : Bus SimState)
    (h : ¬ PollsWithin s fuel (waitMasks m) b.dev.nStatus) :
    get_sonar_value (simPeriph s d) m fuel b = none := by
  cases hrun : get_sonar_value (simPeriph s d) m fuel b with
  | none => rfl
  | some x =>
    obtain ⟨r, c⟩ := x
    exact absurd (get_sonar_value_sim_some s d m fuel b c r hrun).1 h

theorem sample_run :
    get_sonar_value (simPeriph slowStatus sampleData) xmegaMasks 2 simStart =
      some (300, sampleEnd) := by
  decide

/-! ## The initialisation: `init_sonar` -/

/-- C4. Idempotence of initialisation: on plain read/write registers, running
`init_sonar` twice leaves the same register file as running it once, for every
initial register file (so the same `BAUD`, `CTRLA` and `STATUS`). -/
theorem init_sonar_idempotent (m : Masks) (s : TWI_MASTER_t) :
    init_regs m (init_regs m s) = init_regs m s := by
  simp only [init_regs, init_sonar, store, load, plainRegs, TWI_MASTER_t.get, TWI_MASTER_t.set,
    Nat.mod_mod, byte_or_idem]

/-- C5. Postcondition of initialisation: for every prior register file, after
`init_sonar` the register `BAUD` holds 155, the master-enable bit of `CTRLA` is set and
bit 0 of `STATUS` is set; `init_sonar` is a total function, it has no failure outcome.
The mask `TWI_MASTER_ENABLE_bm` is a mask of the 8-bit register `CTRLA`. -/
theorem init_sonar_postcondition (m : Masks) (s : TWI_MASTER_t)
    (hm : m.TWI_MASTER_ENABLE_bm < 256) :
    (init_regs m s).BAUD = 155 ∧
      (init_regs m s).CTRLA &&& m.TWI_MASTER_ENABLE_bm = m.TWI_MASTER_ENABLE_bm ∧
      (init_regs m s).STATUS &&& 0x01 = 0x01 := by
  simp only [init_regs, init_sonar, store, load, plainRegs, TWI_MASTER_t.get, TWI_MASTER_t.set]
  exact ⟨trivial, byte_or_and _ _ hm, byte_or_and _ _ (by norm_num)⟩

/-- Witness of C5: the initialisation of a register file with arbitrary contents. -/
theorem init_sonar_postcondition_witness :
    (init_regs xmegaMasks ⟨0xF0, 2, 3, 0x46, 5, 6, 7⟩).BAUD = 155 ∧
      (init_regs xmegaMasks ⟨0xF0, 2, 3, 0x46, 5, 6, 7⟩).CTRLA &&& 0x08 = 0x08 ∧
      (init_regs xmegaMasks ⟨0xF0, 2, 3, 0x46, 5, 6, 7⟩).STATUS &&& 0x01 = 0x01 :=
  init_sonar_postcondition xmegaMasks ⟨0xF0, 2, 3, 0x46, 5, 6, 7⟩ (by decide)

/-- C10. Frame of initialisation: for every prior register file, `init_sonar` leaves
every bit of `CTRLA` outside the master-enable mask and every bit of `STATUS` other
than bit 0 as it was, leaves `ADDR`, `DATA`, `CTRLB` and `CTRLC` unchanged, and, on any
peripheral, writes to `BAUD`, `CTRLA` and `STATUS` only, so it starts no bus
transaction. -/
theorem init_sonar_frame (m : Masks) (s : TWI_MASTER_t) :
    (∀ i, i < 8 → m.TWI_MASTER_ENABLE_bm.testBit i = false →
        (init_regs m s).CTRLA.testBit i = s.CTRLA.testBit i) ∧
      (∀ i, i < 8 → i ≠ 0 → (init_regs m s).STATUS.testBit i = s.STATUS.testBit i) ∧
      (init_regs m s).ADDR = s.ADDR ∧ (init_regs m s).DATA = s.DATA ∧
      (init_regs m s).CTRLB = s.CTRLB ∧ (init_regs m s).CTRLC = s.CTRLC ∧
      (∀ (τ : Type) (p : Periph τ) (b : Bus τ),
        (writesOf (init_sonar p m b).trace).map Prod.fst =
          (writesOf b.trace).map Prod.fst ++ [Reg.BAUD, Reg.CTRLA, Reg.STATUS]) := by
  simp only [init_regs, init_sonar, store, load, plainRegs, TWI_MASTER_t.get, TWI_MASTER_t.set]
  refine ⟨fun i hi he => byte_or_testBit _ _ i hi he, fun i hi h0 => ?_, trivial, trivial, trivial, trivial, ?_⟩
  · apply byte_or_testBit _ _ i hi
    cases i with
    | zero => exact absurd rfl h0
    | succ n => simp [Nat.testBit_succ]
  · intro τ p b
    simp [writesOf, Event.asWrite, List.filterMap_append]

/-- Witness of C10: bit 4 of `CTRLA` and bit 6 of `STATUS` survive the initialisation. -/
theorem init_sonar_frame_witness :
    (init_regs xmegaMasks ⟨0xF0, 2, 3, 0x46, 5, 6, 7⟩).CTRLA.testBit 4 = true ∧
      (init_regs xmegaMasks ⟨0xF0, 2, 3, 0x46, 5, 6, 7⟩).STATUS.testBit 6 = true :=
  ⟨(init_sonar_frame xmegaMasks ⟨0xF0, 2, 3, 0x46, 5, 6, 7⟩).1 4 (by decide) (by decide),
   (init_sonar_frame xmegaMasks ⟨0xF0, 2, 3, 0x46, 5, 6, 7⟩).2.1 6 (by decide) (by decide)⟩

/-! ## The composed value -/

/-- C3. No wrap: for all bytes `h` and `l` the value computed by the machine
arithmetic of `get_sonar_value` (16-bit `int` product stored in a `uint16_t`, then a
`uint16_t` addition) is the exact integer `h * 256 + l`, and it lies in `0..65535`. -/
theorem range_FULL_no_wrap (h l : Nat) (hh : h < 256) (hl : l < 256) :
    range_FULL h l = h * 256 + l ∧ range_FULL h l ≤ 65535 := by
  have := range_FULL_exact h l hh hl
  exact ⟨this, by omega⟩

/-- Witness of C3: the three boundary cases. -/
theorem range_FULL_no_wrap_witness :
    range_FULL 0x00 0x0A = 10 ∧ range_FULL 0x02 0x58 = 600 ∧ range_FULL 0xFF 0xFF = 65535 :=
  ⟨(range_FULL_no_wrap 0x00 0x0A (by decide) (by decide)).1,
   (range_FULL_no_wrap 0x02 0x58 (by decide) (by decide)).1,
   (range_FULL_no_wrap 0xFF 0xFF (by decide) (by decide)).1⟩

/-! ## The ranging exchange: `get_sonar_value` -/

/-- C1. Composition law: for all bytes `h` and `l`, when the simulated peripheral
supplies `h` as the first value read from `DATA` and `l` as the second, and each of the
seven busy-waits sees its flag set after finitely many status reads, then with enough
fuel `get_sonar_value` returns exactly `h * 256 + l`. -/
theorem get_sonar_value_composition (m : Masks) (status data : Nat → Nat) (h l : Nat)
    (hh : h < 256) (hl : l < 256) (h0 : data 0 = h) (h1 : data 1 = l)
    (hpolls : PollsComplete status (waitMasks m) 0) :
    ∃ fuel0, ∀ fuel, fuel0 ≤ fuel →
      ∃ c, get_sonar_value (simPeriph status data) m fuel simStart = some (h * 256 + l, c) := by
  obtain ⟨f, hf⟩ := PollsWithin_of_complete status (waitMasks m) 0 hpolls
  refine ⟨f, fun fuel hfuel => ?_⟩
  obtain ⟨c, hc⟩ := get_sonar_value_sim_of_polls status data m fuel simStart
    (PollsWithin_mono status f fuel hfuel _ _ hf)
  refine ⟨c, ?_⟩
  rw [hc]
  have e0 : data simStart.dev.nData = h := h0
  have e1 : data (simStart.dev.nData + 1) = l := h1
  rw [e0, e1, Nat.mod_eq_of_lt hh, Nat.mod_eq_of_lt hl, range_FULL_exact h l hh hl]

/-- Witness of C1: the bytes `0x01` and `0x2C` give 300. -/
theorem get_sonar_value_composition_witness :
    ∃ fuel0, ∀ fuel, fuel0 ≤ fuel →
      ∃ c, get_sonar_value (simPeriph slowStatus sampleData) xmegaMasks fuel simStart =
        some (300, c) :=
  get_sonar_value_composition xmegaMasks slowStatus sampleData 0x01 0x2C (by decide) (by decide)
    rfl rfl
    (PollsComplete_of_within slowStatus 2 _ _
      (get_sonar_value_sim_some slowStatus sampleData xmegaMasks 2 simStart sampleEnd 300
        sample_run).1)

/-- C2. Sequencing: for every call of `get_sonar_value` that returns, on any
peripheral, the accesses the call adds to the trace, status polls left out, are exactly
the twelve events `ADDR:=0xE0`, `DATA:=0x00`, `DATA:=0x51`, `CTRLC:=0x03`, `ADDR:=0xE0`,
`DATA:=0x02`, `CTRLC:=0x03`, `ADDR:=0xE1`, read `DATA`, `CTRLC:=0x02`, read `DATA`,
`CTRLC:=0x07`, in that order. -/
theorem get_sonar_value_sequence (p : Periph σ) (m : Masks) (fuel : Nat) (b c : Bus σ) (r : Nat)
    (h : get_sonar_value p m fuel b = some (r, c)) :
    ∃ evs hi lo, c.trace = b.trace ++ evs ∧
      busEvents evs =
        [Event.write Reg.ADDR 0xE0, Event.write Reg.DATA 0x00, Event.write Reg.DATA 0x51,
         Event.write Reg.CTRLC 0x03, Event.write Reg.ADDR 0xE0, Event.write Reg.DATA 0x02,
         Event.write Reg.CTRLC 0x03, Event.write Reg.ADDR 0xE1, Event.read Reg.DATA hi,
         Event.write Reg.CTRLC 0x02, Event.read Reg.DATA lo, Event.write Reg.CTRLC 0x07] ∧
      (busEvents evs).length = 12 := by
  obtain ⟨evs, hi, lo, ht, -, -, -, hb, -⟩ := get_sonar_value_busEvents p m fuel b c r h
  refine ⟨evs, hi, lo, ht, hb, ?_⟩
  rw [hb]
  rfl

/-- Witness of C2: the sample run, in which every busy-wait polls twice. -/
theorem get_sonar_value_sequence_witness :
    ∃ evs hi lo, sampleEnd.trace = simStart.trace ++ evs ∧
      busEvents evs =
        [Event.write Reg.ADDR 0xE0, Event.write Reg.DATA 0x00, Event.write Reg.DATA 0x51,
         Event.write Reg.CTRLC 0x03, Event.write Reg.ADDR 0xE0, Event.write Reg.DATA 0x02,
         Event.write Reg.CTRLC 0x03, Event.write Reg.ADDR 0xE1, Event.read Reg.DATA hi,
         Event.write Reg.CTRLC 0x02, Event.read Reg.DATA lo, Event.write Reg.CTRLC 0x07] ∧
      (busEvents evs).length = 12 :=
  get_sonar_value_sequence (simPeriph slowStatus sampleData) xmegaMasks 2 simStart sampleEnd 300
    sample_run

/-- C9. Placement of the waits: in every call of `get_sonar_value` that returns, on
any peripheral, the trace added by the call is: each of the six `ADDR`/`DATA` writes
directly followed by a completed busy-wait on the clock-hold flag, the two stop
commands and the final command followed by no poll, the high byte read from `DATA`
directly after the clock-hold wait of the read-address phase, and a single completed
busy-wait on the receive-complete flag, after the ack-continue command and before the
read of the low byte. -/
theorem get_sonar_value_wait_placement (p : Periph σ) (m : Masks) (fuel : Nat) (b c : Bus σ)
    (r : Nat) (h : get_sonar_value p m fuel b = some (r, c)) :
    ∃ p1 p2 p3 p4 p5 p6 p7 hi lo,
      IsPoll m.TWI_MASTER_CLKHOLD_bm p1 ∧ IsPoll m.TWI_MASTER_CLKHOLD_bm p2 ∧
      IsPoll m.TWI_MASTER_CLKHOLD_bm p3 ∧ IsPoll m.TWI_MASTER_CLKHOLD_bm p4 ∧
      IsPoll m.TWI_MASTER_CLKHOLD_bm p5 ∧ IsPoll m.TWI_MASTER_CLKHOLD_bm p6 ∧
      IsPoll m.TWI_MASTER_RIF_bm p7 ∧
      c.trace = b.trace ++
        ([Event.write Reg.ADDR 0xE0] ++ p1 ++ [Event.write Reg.DATA 0x00] ++ p2 ++
         [Event.write Reg.DATA 0x51] ++ p3 ++
         [Event.write Reg.CTRLC 0x03, Event.write Reg.ADDR 0xE0] ++ p4 ++
         [Event.write Reg.DATA 0x02] ++ p5 ++
         [Event.write Reg.CTRLC 0x03, Event.write Reg.ADDR 0xE1] ++ p6 ++
         [Event.read Reg.DATA hi, Event.write Reg.CTRLC 0x02] ++ p7 ++
         [Event.read Reg.DATA lo, Event.write Reg.CTRLC 0x07]) := by
  obtain ⟨p1, p2, p3, p4, p5, p6, p7, hi, lo, h1, h2, h3, h4, h5, h6, h7, -, -, -, ht⟩ :=
    get_sonar_value_trace p m fuel b c r h
  exact ⟨p1, p2, p3, p4, p5, p6, p7, hi, lo, h1, h2, h3, h4, h5, h6, h7, ht⟩

/-- Witness of C9: the sample run. -/
theorem get_sonar_value_wait_placement_witness :
    ∃ p1 p2 p3 p4 p5 p6 p7 hi lo,
      IsPoll 0x20 p1 ∧ IsPoll 0x20 p2 ∧ IsPoll 0x20 p3 ∧ IsPoll 0x20 p4 ∧ IsPoll 0x20 p5 ∧
      IsPoll 0x20 p6 ∧ IsPoll 0x80 p7 ∧
      sampleEnd.trace = simStart.trace ++
        ([Event.write Reg.ADDR 0xE0] ++ p1 ++ [Event.write Reg.DATA 0x00] ++ p2 ++
         [Event.write Reg.DATA 0x51] ++ p3 ++
         [Event.write Reg.CTRLC 0x03, Event.write Reg.ADDR 0xE0] ++ p4 ++
         [Event.write Reg.DATA 0x02] ++ p5 ++
         [Event.write Reg.CTRLC 0x03, Event.write Reg.ADDR 0xE1] ++ p6 ++
         [Event.read Reg.DATA hi, Event.write Reg.CTRLC 0x02] ++ p7 ++
         [Event.read Reg.DATA lo, Event.write Reg.CTRLC 0x07]) :=
  get_sonar_value_wait_placement (simPeriph slowStatus sampleData) xmegaMasks 2 simStart
    sampleEnd 300 sample_run

/-- C6, as stated, fails: in the sample run the write `ADDR:=0xE0` directly follows the
stop command `CTRLC:=0x03`, with no status poll between the two writes. -/
theorem single_in_flight_fails :
    get_sonar_value (simPeriph slowStatus sampleData) xmegaMasks 2 simStart =
        some (300, sampleEnd) ∧
      ¬ SingleInFlight xmegaMasks sampleEnd.trace := by
  refine ⟨sample_run, fun h => ?_⟩
  obtain ⟨x, hx, -⟩ := h (sampleTrace.take 9) [] (sampleTrace.drop 11) stopCmd
    (Event.write Reg.ADDR 0xE0) rfl rfl rfl
  exact absurd hx (List.not_mem_nil x)

/-- C6, amended: in every call of `get_sonar_value` that returns, on any peripheral,
between a write to `ADDR`, `DATA` or `CTRLC` that is not the stop command `CTRLC:=0x03`
and any later such write, a status poll saw the clock-hold or the receive-complete flag
set; the write to `ADDR` that follows each of the two stop commands is the very next
access, with no status read in between. -/
theorem get_sonar_value_waits_except_after_stop (p : Periph σ) (m : Masks) (fuel : Nat)
    (b c : Bus σ) (r : Nat) (h : get_sonar_value p m fuel b = some (r, c)) :
    ∃ evs, c.trace = b.trace ++ evs ∧ SingleInFlightButStop m evs ∧
      ∃ pre mid post, evs = pre ++ [stopCmd, Event.write Reg.ADDR 0xE0] ++ mid ++
        [stopCmd, Event.write Reg.ADDR 0xE1] ++ post := by
  obtain ⟨p1, p2, p3, p4, p5, p6, p7, hi, lo, h1, h2, h3, h4, h5, h6, h7, -, -, -, ht⟩ :=
    get_sonar_value_trace p m fuel b c r h
  refine ⟨_, ht, ?_, ?_⟩
  · apply singleInFlightButStop_of_awaits m _ false
    simp only [List.append_assoc, List.singleton_append, List.cons_append, List.nil_append]
    simp only [awaits, Event.isBusWrite, if_true, Bool.not_false, Bool.true_and, Bool.not_true,
      awaits_poll m _ _ _ _ (Or.inl rfl) h1, awaits_poll m _ _ _ _ (Or.inl rfl) h2,
      awaits_poll m _ _ _ _ (Or.inl rfl) h3, awaits_poll m _ _ _ _ (Or.inl rfl) h4,
      awaits_poll m _ _ _ _ (Or.inl rfl) h5, awaits_poll m _ _ _ _ (Or.inl rfl) h6,
      awaits_poll m _ _ _ _ (Or.inr rfl) h7]
    simp [stopCmd, Event.isCompletion]
  · exact ⟨[Event.write Reg.ADDR 0xE0] ++ p1 ++ [Event.write Reg.DATA 0x00] ++ p2 ++
        [Event.write Reg.DATA 0x51] ++ p3, p4 ++ [Event.write Reg.DATA 0x02] ++ p5,
      p6 ++ [Event.read Reg.DATA hi, Event.write Reg.CTRLC 0x02] ++ p7 ++
        [Event.read Reg.DATA lo, Event.write Reg.CTRLC 0x07], by simp [stopCmd]⟩

/-- Witness of the amended C6: the sample run. -/
theorem get_sonar_value_waits_except_after_stop_witness :
    ∃ evs, sampleEnd.trace = simStart.trace ++ evs ∧ SingleInFlightButStop xmegaMasks evs ∧
      ∃ pre mid post, evs = pre ++ [stopCmd, Event.write Reg.ADDR 0xE0] ++ mid ++
        [stopCmd, Event.write Reg.ADDR 0xE1] ++ post :=
  get_sonar_value_waits_except_after_stop (simPeriph slowStatus sampleData) xmegaMasks 2
    simStart sampleEnd 300 sample_run

/-- C7. Termination, no timeout: on the simulated peripheral, `get_sonar_value` returns
for some bound on the polls exactly when each of its seven busy-waits (six on the
clock-hold flag, then one on the receive-complete flag) sees its flag set after
finitely many status reads; when one of them never does, in particular when the
clock-hold flag is never set, the call returns for no bound on the number of polls. -/
theorem get_sonar_value_returns_iff (m : Masks) (status data : Nat → Nat) (b : Bus SimState) :
    ((∃ fuel r c, get_sonar_value (simPeriph status data) m fuel b = some (r, c)) ↔
        PollsComplete status (waitMasks m) b.dev.nStatus) ∧
      (¬ PollsComplete status (waitMasks m) b.dev.nStatus →
        ∀ fuel, get_sonar_value (simPeriph status data) m fuel b = none) ∧
      ((∀ k, b.dev.nStatus ≤ k → status k % 256 &&& m.TWI_MASTER_CLKHOLD_bm = 0) →
        ∀ fuel, get_sonar_value (simPeriph status data) m fuel b = none) := by
  refine ⟨⟨?_, ?_⟩, ?_, ?_⟩
  · rintro ⟨fuel, r, c, h⟩
    exact PollsComplete_of_within status fuel _ _
      (get_sonar_value_sim_some status data m fuel b c r h).1
  · intro h
    obtain ⟨f, hf⟩ := PollsWithin_of_complete status _ _ h
    obtain ⟨c, hc⟩ := get_sonar_value_sim_of_polls status data m f b hf
    exact ⟨f, _, c, hc⟩
  · intro h fuel
    exact get_sonar_value_sim_none status data m fuel b
      (fun hw => h (PollsComplete_of_within status fuel _ _ hw))
  · intro h fuel
    exact get_sonar_value_sim_none status data m fuel b
      (not_PollsWithin_of_never status fuel _ _ _ h)

/-- Witness of C7: the sample run returns, so its seven busy-waits complete; on a
status stream that is always zero the call returns for no bound. -/
theorem get_sonar_value_returns_iff_witness :
    PollsComplete slowStatus (waitMasks xmegaMasks) 0 ∧
      ∀ fuel, get_sonar_value (simPeriph (fun _ => 0) sampleData) xmegaMasks fuel simStart = none :=
  ⟨(get_sonar_value_returns_iff xmegaMasks slowStatus sampleData simStart).1.1
      ⟨2, 300, sampleEnd, sample_run⟩,
   (get_sonar_value_returns_iff xmegaMasks (fun _ => 0) sampleData simStart).2.2
      (fun _ _ => rfl)⟩

/-- C8. No acknowledge checking: two runs of `get_sonar_value` on simulated peripherals
that supply the same data bytes and agree, at every status read, on the clock-hold and
on the receive-complete bits, and differ in any way in the other status bits (the
receive-acknowledge bit among them), both return or both do not, and when they return
the value and the register writes are the same; the writes of a returning call are the
fixed ten writes, so no address is sent again and nothing but the value is reported. -/
theorem get_sonar_value_ignores_rxack (m : Masks) (status1 status2 data : Nat → Nat)
    (fuel : Nat) (b : Bus SimState)
    (hch : ∀ n, status1 n % 256 &&& m.TWI_MASTER_CLKHOLD_bm =
      status2 n % 256 &&& m.TWI_MASTER_CLKHOLD_bm)
    (hrif : ∀ n, status1 n % 256 &&& m.TWI_MASTER_RIF_bm =
      status2 n % 256 &&& m.TWI_MASTER_RIF_bm) :
    (get_sonar_value (simPeriph status1 data) m fuel b).map observe =
        (get_sonar_value (simPeriph status2 data) m fuel b).map observe ∧
      ∀ r c, get_sonar_value (simPeriph status1 data) m fuel b = some (r, c) →
        writesOf c.trace = writesOf b.trace ++
          [(Reg.ADDR, 0xE0), (Reg.DATA, 0x00), (Reg.DATA, 0x51), (Reg.CTRLC, 0x03),
           (Reg.ADDR, 0xE0), (Reg.DATA, 0x02), (Reg.CTRLC, 0x03), (Reg.ADDR, 0xE1),
           (Reg.CTRLC, 0x02), (Reg.CTRLC, 0x07)] := by
  have writes : ∀ (s : Nat → Nat) r c, get_sonar_value (simPeriph s data) m fuel b = some (r, c) →
      writesOf c.trace = writesOf b.trace ++
        [(Reg.ADDR, 0xE0), (Reg.DATA, 0x00), (Reg.DATA, 0x51), (Reg.CTRLC, 0x03),
         (Reg.ADDR, 0xE0), (Reg.DATA, 0x02), (Reg.CTRLC, 0x03), (Reg.ADDR, 0xE1),
         (Reg.CTRLC, 0x02), (Reg.CTRLC, 0x07)] := by
    intro s r c h
    obtain ⟨evs, hi, lo, ht, -, -, -, -, hw⟩ := get_sonar_value_busEvents _ m fuel b c r h
    rw [ht, writesOf_append, hw]
  have agree12 : ∀ mask ∈ waitMasks m, ∀ n, status1 n % 256 &&& mask = status2 n % 256 &&& mask := by
    intro mask hmask n
    simp only [waitMasks, List.mem_cons, List.mem_singleton, List.not_mem_nil, or_false,
      or_self] at hmask
    rcases hmask with rfl | rfl | rfl | rfl | rfl | rfl | rfl
    all_goals first | exact hch n | exact hrif n
  have agree21 : ∀ mask ∈ waitMasks m, ∀ n, status2 n % 256 &&& mask = status1 n % 256 &&& mask :=
    fun mask hmask n => (agree12 mask hmask n).symm
  refine ⟨?_, writes status1⟩
  cases h1 : get_sonar_value (simPeriph status1 data) m fuel b with
  | none =>
    cases h2 : get_sonar_value (simPeriph status2 data) m fuel b with
    | none => rfl
    | some x2 =>
      obtain ⟨r2, c2⟩ := x2
      have hp := PollsWithin_agree status2 status1 fuel _ agree21 _
        (get_sonar_value_sim_some status2 data m fuel b c2 r2 h2).1
      obtain ⟨c, hc⟩ := get_sonar_value_sim_of_polls status1 data m fuel b hp
      rw [hc] at h1
      cases h1
  | some x1 =>
    obtain ⟨r1, c1⟩ := x1
    have hs := get_sonar_value_sim_some status1 data m fuel b c1 r1 h1
    have hp := PollsWithin_agree status1 status2 fuel _ agree12 _ hs.1
    obtain ⟨c2, hc2⟩ := get_sonar_value_sim_of_polls status2 data m fuel b hp
    rw [hc2]
    simp only [Option.map_some', observe, writes status1 _ _ h1, writes status2 _ _ hc2, hs.2]

/-- Witness of C8: the sample run and the run with the receive-acknowledge bit inverted
at every status read return the same value and make the same writes. -/
theorem get_sonar_value_ignores_rxack_witness :
    (get_sonar_value (simPeriph slowStatus sampleData) xmegaMasks 2 simStart).map observe =
        (get_sonar_value (simPeriph flippedStatus sampleData) xmegaMasks 2 simStart).map observe ∧
      (get_sonar_value (simPeriph flippedStatus sampleData) xmegaMasks 2 simStart).map observe =
        some (300, [(Reg.ADDR, 0xE0), (Reg.DATA, 0x00), (Reg.DATA, 0x51), (Reg.CTRLC, 0x03),
           (Reg.ADDR, 0xE0), (Reg.DATA, 0x02), (Reg.CTRLC, 0x03), (Reg.ADDR, 0xE1),
           (Reg.CTRLC, 0x02), (Reg.CTRLC, 0x07)]) :=
  ⟨(get_sonar_value_ignores_rxack xmegaMasks slowStatus flippedStatus sampleData 2 simStart
      (fun n => by unfold slowStatus flippedStatus; split <;> rfl)
      (fun n => by unfold slowStatus flippedStatus; split <;> rfl)).1,
   by decide⟩

end Sonar
